import Mathlib

/-!
Shallow embedding of `core.io-data-manager` (src/lib/manager.js) and proofs
about its record-reconciliation engine, criteria builder, default hydration,
error aggregator and export pipeline.

Modelling conventions:
* JavaScript scalar values become `JSVal` (numbers as `Int`; the source only
  ever compares them for truthiness/emptiness and string-coerces them).
* A JS object used as a record becomes an association list `Record`;
  `record[k]` reads as `getVal` (absent keys read as `undefined`),
  `record[k] = v` writes as `setVal` (update first occurrence or append,
  matching JS insertion-order key semantics).
* Promises become explicit `Except` results: a rejected promise is `.error`,
  a resolved one `.ok`.  Asynchronous delays (`delay`, `setTimeout`) suspend
  without changing any data, so they are not part of the state; the pure
  trigger predicate `_itemTriggersBatchDelay` is embedded as-is.
* The store handle (`Model[updateStrategy]`, `Model.destroy`) and the model
  provider are external collaborators; they enter as function/result
  parameters of the pass.
-/

/-- A JavaScript scalar value as used by the manager.  Numbers are embedded
as `Int` (the source never does fractional arithmetic on record values). -/
inductive JSVal where
  | undef
  | null
  | bool (b : Bool)
  | num (n : Int)
  | str (s : String)
  deriving DecidableEq, Repr

/-- JS truthiness of a scalar (`!v` in the source negates this). -/
def jsTruthy : JSVal → Bool
  | .undef => false
  | .null => false
  | .bool b => b
  | .num n => n != 0
  | .str s => s != ""

/-- The emptiness test of `buildCriteria`:
`v === undefined || v === null || v === ""`. -/
def isEmptyVal : JSVal → Bool
  | .undef => true
  | .null => true
  | .str s => s == ""
  | _ => false

/-- JS string coercion `'' + value` for the values that can reach the cast
(`null`/`undefined` are returned before coercion in `_castField`). -/
def jsToString : JSVal → String
  | .undef => "undefined"
  | .null => "null"
  | .bool b => if b then "true" else "false"
  | .num n => toString n
  | .str s => s

/-- A record: a JS object mapped field name to scalar, in insertion order. -/
abbrev Record := List (String × JSVal)

/-- `record[key]`: first-occurrence lookup, absent keys read `undefined`. -/
def getVal : Record → String → JSVal
  | [], _ => .undef
  | (k, v) :: rest, key => if k = key then v else getVal rest key

/-- `record[key] = v`: overwrite the first occurrence or append. -/
def setVal : Record → String → JSVal → Record
  | [], key, v => [(key, v)]
  | (k, w) :: rest, key, v =>
    if k = key then (k, v) :: rest else (k, w) :: setVal rest key v

theorem getVal_setVal_self (rec : Record) (k : String) (v : JSVal) :
    getVal (setVal rec k v) k = v := by
  induction rec with
  | nil => simp [setVal, getVal]
  | cons hd tl ih =>
    by_cases h : hd.1 = k
    · simp [setVal, getVal, h]
    · simp [setVal, getVal, h, ih]

theorem getVal_setVal_ne (rec : Record) (k k' : String) (v : JSVal)
    (h : k ≠ k') : getVal (setVal rec k v) k' = getVal rec k' := by
  induction rec with
  | nil => simp [setVal, getVal, h]
  | cons hd tl ih =>
    by_cases hk : hd.1 = k
    · simp [setVal, getVal, hk, h]
    · by_cases hk' : hd.1 = k'
      · have hne : ¬ k' = k := fun hh => h hh.symm
        simp [setVal, getVal, hk, hk', hne]
      · simp [setVal, getVal, hk, hk', ih]

/-- A `defaultsTo` declaration in a model's schema definition: absent,
a literal value, or a zero-argument producer function (whose eventual
return value we record, since it takes no inputs). -/
inductive DefaultSpec where
  | absent
  | value (v : JSVal)
  | producer (v : JSVal)
  deriving DecidableEq, Repr

/-- Truthiness of the `defaultsTo` slot as tested by
`if (!definition.defaultsTo) return;`: an absent slot reads `undefined`
(falsy), a literal is tested for JS truthiness, a function object is truthy. -/
def defaultTruthy : DefaultSpec → Bool
  | .absent => false
  | .value v => jsTruthy v
  | .producer _ => true

/-- `_get(defaultsTo)`: invoke a producer, pass a literal through. -/
def _get : DefaultSpec → JSVal
  | .absent => .undef
  | .value v => v
  | .producer v => v

/-- One field of `Model.definition` (the schema): unique flag and default. -/
structure FieldDef where
  unique : Bool := false
  defaultsTo : DefaultSpec := .absent
  deriving DecidableEq, Repr

/-- One field of `Model.attributes`: the declared storage type. -/
structure AttrDef where
  type : String := ""
  deriving DecidableEq, Repr

/-- The parts of a Waterline model handle the manager reads:
`Model.attributes` (for criteria building) and `Model.definition`
(for defaults and unique fields). -/
structure ModelDef where
  attributes : List (String × AttrDef) := []
  definition : List (String × FieldDef) := []

/-- `Model.attributes.hasOwnProperty(field)` / `Model.attributes[field]`. -/
def lookupAttr (M : ModelDef) (field : String) : Option AttrDef :=
  M.attributes.foldr (fun kv acc => if kv.1 = field then some kv.2 else acc) none

/-- The body of the `Object.keys(schema).map` loop in
`_makeDefaultAttributes`: skip keys whose value is already present
(`record[key] !== undefined`) or whose `defaultsTo` slot is falsy, otherwise
assign the computed default. -/
def hydrateStep (rec : Record) (kv : String × FieldDef) : Record :=
  if getVal rec kv.1 ≠ JSVal.undef then rec
  else if defaultTruthy kv.2.defaultsTo = false then rec
  else setVal rec kv.1 (_get kv.2.defaultsTo)

/-- `_makeDefaultAttributes(Model, record)`: run `hydrateStep` over the
schema keys in declaration order. -/
def _makeDefaultAttributes (M : ModelDef) (record : Record) : Record :=
  M.definition.foldl hydrateStep record

/-- `_getIdentityFields(Model, record, identityFields)` — the default identity
resolver: append every schema key marked `unique` that is not already in the
base list, preserving order. -/
def _getIdentityFields (M : ModelDef) (_record : Record)
    (identityFields : List String) : List String :=
  M.definition.foldl
    (fun acc kv =>
      if kv.2.unique then (if acc.contains kv.1 then acc else acc ++ [kv.1])
      else acc)
    identityFields

/-- `_castField(Model, record, field)` for a field whose attribute definition
is `attr`: `null`/`undefined` are returned unchanged; for `text`/`string`
attributes the value is string-coerced and written back into the record;
otherwise the value passes through.  Returns the value together with the
(possibly mutated) record. -/
def _castField (attr : AttrDef) (record : Record) (field : String) :
    JSVal × Record :=
  let value := getVal record field
  if value = .null ∨ value = .undef then (value, record)
  else if attr.type = "text" ∨ attr.type = "string" then
    let v := JSVal.str (jsToString value)
    (v, setVal record field v)
  else (value, record)

/-- The value component of `_castField` as a function of the raw value. -/
def castVal (attr : AttrDef) (value : JSVal) : JSVal :=
  if value = .null ∨ value = .undef then value
  else if attr.type = "text" ∨ attr.type = "string" then
    JSVal.str (jsToString value)
  else value

theorem castField_fst (attr : AttrDef) (record : Record) (field : String) :
    (_castField attr record field).1 = castVal attr (getVal record field) := by
  unfold _castField castVal
  by_cases h : getVal record field = .null ∨ getVal record field = .undef
  · simp [h]
  · by_cases ht : attr.type = "text" ∨ attr.type = "string" <;> simp [h, ht]

theorem castField_snd_getVal_ne (attr : AttrDef) (record : Record)
    (field g : String) (h : field ≠ g) :
    getVal (_castField attr record field).2 g = getVal record g := by
  unfold _castField
  by_cases h0 : getVal record field = .null ∨ getVal record field = .undef
  · simp [h0]
  · by_cases ht : attr.type = "text" ∨ attr.type = "string"
    · simp [h0, ht, getVal_setVal_ne _ _ _ _ h]
    · simp [h0, ht]

/-- The shape of the value `buildCriteria` returns: `undefined` (single
identity field whose value was filtered out), a bare single field-equality
expression `{field: value}`, or a disjunction `{or: [...]}`. -/
inductive Criteria where
  | undef
  | single (field : String) (value : JSVal)
  | disj (clauses : List (String × JSVal))
  deriving DecidableEq, Repr

/-- `_emptyCriteria(criteria)`: `Object.keys(criteria).length === 0`.
A missing criteria (`undefined`) falls back to the default `{}` with zero
keys; a single expression `{field: value}` has one key; a disjunction
`{or: [...]}` has the one key `or` even when the clause list is empty. -/
def _emptyCriteria : Criteria → Bool
  | .undef => true
  | .single _ _ => false
  | .disj _ => false

/-- `expressionFromField(field)` inside `buildCriteria`: fail when the model
has no such attribute, otherwise cast the record's value and return `none`
(undefined) for empty values or the equality clause, with the record after
the cast's write-back. -/
def expressionFromField (M : ModelDef) (record : Record) (field : String) :
    Except String (Option (String × JSVal) × Record) :=
  match lookupAttr M field with
  | none => .error ("Build Criteria: model has no field " ++ field)
  | some attr =>
    let res := _castField attr record field
    if isEmptyVal res.1 then .ok (none, res.2) else .ok (some (field, res.1), res.2)

/-- The `identityFields.map(...)` loop of `buildCriteria`: collect one
(possibly undefined) clause per field, threading the record through the
casts' write-backs; the first thrown error aborts. -/
def collectClauses (M : ModelDef) : Record → List String →
    Except String (List (Option (String × JSVal)) × Record)
  | record, [] => .ok ([], record)
  | record, f :: fs =>
    match expressionFromField M record f with
    | .error e => .error e
    | .ok (c, record') =>
      match collectClauses M record' fs with
      | .error e => .error e
      | .ok (cs, record'') => .ok (c :: cs, record'')

/-- `Manager.buildCriteria(Model, record, identityFields)`: throw on an empty
field list; with exactly one field return its bare expression; otherwise
collect the per-field clauses into `{or: [...]}` and
`filter(Boolean)` out the undefined ones. -/
def buildCriteria (M : ModelDef) (record : Record)
    (identityFields : List String) : Except String (Criteria × Record) :=
  match identityFields with
  | [] => .error "Build Criteria: need identity fields"
  | [f] =>
    match expressionFromField M record f with
    | .error e => .error e
    | .ok (some (fld, v), record') => .ok (.single fld v, record')
    | .ok (none, record') => .ok (.undef, record')
  | fs =>
    match collectClauses M record fs with
    | .error e => .error e
    | .ok (cs, record') => .ok (.disj (cs.filterMap id), record')

/-- The import options the engine reads (`DEFAULTS.importOptions` merged with
the caller's options).  `numberOfItemsBeforeDelay` is `none` when the
configured value is not a number; the identity resolver and the optional
batch transform are the configured function values (a string-valued
`transform` is resolved through the external plugin provider before use, so
it enters the pure pass as the resolved function or `none` on load failure). -/
structure ImportOptions where
  truncate : Bool := false
  identityFields : List String := ["id", "uuid"]
  strict : Bool := true
  updateMethod : String := "updateOrCreate"
  getIdentityFields : ModelDef → Record → List String → List String :=
    _getIdentityFields
  numberOfItemsBeforeDelay : Option Int := some (-1)
  delayAfterItemBatch : Int := 1000
  delayBetweenItems : Int := -1
  transform : Option (List Record → List Record) := none

/-- `_itemTriggersBatchDelay(options, itemCount)`.  The source computes
`options.numberOfItemsBeforeDelay % itemCount` (the configured buffer size
modulo the processed count).  `x % 0` is `NaN` in JS and `NaN === 0` is
false, hence the explicit zero guard; `Int.tmod` is JS's truncated `%`. -/
def _itemTriggersBatchDelay (options : ImportOptions) (itemCount : Nat) : Bool :=
  match options.numberOfItemsBeforeDelay with
  | none => false
  | some n =>
    if n = -1 then false
    else if itemCount = 0 then false
    else Int.tmod n (itemCount : Int) == 0

/-- The throttle trigger as the spec words it: `numberOfItemsBeforeDelay` is
a non-negative number and the count of already-processed records, modulo that
number, equals zero. -/
def specTriggersBatchDelay (options : ImportOptions) (itemCount : Nat) : Bool :=
  match options.numberOfItemsBeforeDelay with
  | none => false
  | some n => 0 ≤ n && Int.tmod (itemCount : Int) n == 0

/-- A store rejection (the error object coming back from
`Model[updateStrategy]` / `Model.destroy`), reduced to its message. -/
structure StoreErr where
  message : String := ""
  deriving DecidableEq, Repr

/-- `DataManagerError`: the wrapper built by `Manager.wrapError`, carrying the
source error's message, the entity identity, the attempted update strategy,
the criteria, the source error and (assigned after construction) the record.
The `id` field is derived from the wall clock (`Date.now()`), an external
input, and is not modelled. -/
structure DataManagerError where
  message : String
  identity : String
  updateStrategy : String
  criteria : Criteria
  source : StoreErr
  record : Record
  deriving DecidableEq, Repr

/-- `Manager.wrapError(record, identity, updateStrategy, criteria, src)`. -/
def wrapError (record : Record) (identity : String) (updateStrategy : String)
    (criteria : Criteria) (src : StoreErr) : DataManagerError :=
  { message := src.message, identity := identity,
    updateStrategy := updateStrategy, criteria := criteria,
    source := src, record := record }

/-- The argument list of the upsert dispatch
`let args = o.truncate ? [record] : [criteria, record];`. -/
inductive UpsertArgs where
  | truncateArgs (record : Record)
  | criteriaArgs (criteria : Criteria) (record : Record)
  deriving DecidableEq, Repr

/-- The record the store is asked to persist, from either argument shape. -/
def UpsertArgs.record : UpsertArgs → Record
  | .truncateArgs r => r
  | .criteriaArgs _ r => r

/-- A store handle for one entity: `Model[updateStrategy].apply(Model, args)`
as a function from the strategy name and the argument list to the settled
promise. -/
abbrev Upsert := String → UpsertArgs → Except StoreErr Record

/-- What one loop turn of `_importModel.iterate` computes for a record before
dispatching the upsert: the (possibly degraded) strategy and per-record
truncate flag, the built criteria, the record after default hydration and
cast write-backs, and the dispatch arguments. -/
structure StepRes where
  strategy : String
  truncateFlag : Bool
  criteria : Criteria
  record : Record
  args : UpsertArgs
  deriving DecidableEq, Repr

/-- `let method = options.truncate ? 'create' : options.updateMethod;`. -/
def passMethod (options : ImportOptions) : String :=
  if options.truncate then "create" else options.updateMethod

/-- The pre-dispatch body of one `iterate` turn: copy the options and method
into per-record variables, hydrate defaults, resolve identity fields, build
criteria (a thrown error rejects the pass), apply the empty-criteria policy
(under truncate: clear the per-record truncate flag and degrade to
`create`), and shape the dispatch arguments.  The cooperative delays that
may precede the dispatch suspend without changing any of this data. -/
def step (M : ModelDef) (options : ImportOptions) (method : String)
    (record : Record) : Except String StepRes :=
  let oTrunc := options.truncate
  let strat := method
  let record := _makeDefaultAttributes M record
  let identityFields := options.getIdentityFields M record options.identityFields
  match buildCriteria M record identityFields with
  | .error e => .error e
  | .ok (criteria, record) =>
    -- `if (_emptyCriteria(criteria)) { if (o.truncate) { o.truncate = false;
    -- updateStrategy = 'create'; } }`: the copies change exactly when the
    -- criteria are empty and the per-record truncate flag is set.
    let degraded := _emptyCriteria criteria && oTrunc
    let oTrunc := if degraded then false else oTrunc
    let strat := if degraded then "create" else strat
    let args :=
      if oTrunc then UpsertArgs.truncateArgs record
      else UpsertArgs.criteriaArgs criteria record
    .ok { strategy := strat, truncateFlag := oTrunc, criteria := criteria,
          record := record, args := args }

/-- `_importModel.iterate`, processing order made explicit: the source pops
records off the tail of the array, so the caller passes the reversed
sequence here and this helper walks it front to back.  A successful upsert
appends the persisted record to `output`; a store rejection appends a
wrapped error to `errors` and continues; a thrown criteria error rejects
the whole pass.  (A falsy array element would end the loop early in JS;
records here are objects, which are always truthy.) -/
def iterAux (identity : String) (M : ModelDef) (options : ImportOptions)
    (method : String) (upsert : Upsert) :
    List Record → List Record → List DataManagerError →
    Except String (List Record × List DataManagerError)
  | [], output, errors => .ok (output, errors)
  | r :: rs, output, errors =>
    match step M options method r with
    | .error e => .error e
    | .ok s =>
      match upsert s.strategy s.args with
      | .ok rec => iterAux identity M options method upsert rs (output ++ [rec]) errors
      | .error err =>
        iterAux identity M options method upsert rs output
          (errors ++ [wrapError s.record identity s.strategy s.criteria err])

/-- `iterate(items, options)` as called by `_importModel`: consume from the
tail of the arrival-ordered sequence. -/
def runIterate (identity : String) (M : ModelDef) (options : ImportOptions)
    (method : String) (upsert : Upsert) (items : List Record) :
    Except String (List Record × List DataManagerError) :=
  iterAux identity M options method upsert items.reverse [] []

/-- The manager's process-wide mutable state: the per-identity error
aggregator `this.errors` and the in-flight map `this._importingEntities`. -/
structure ManagerState where
  errors : List (String × List DataManagerError) := []
  importingEntities : List (String × Bool) := []

/-- `this.errors[identity]` with the `|| []` read used everywhere. -/
def getErrorsFor (errors : List (String × List DataManagerError))
    (identity : String) : List DataManagerError :=
  match errors.lookup identity with
  | some es => es
  | none => []

/-- Write `this.errors[identity] = es` (JS object key update-or-insert). -/
def setErrorsFor (errors : List (String × List DataManagerError))
    (identity : String) (es : List DataManagerError) :
    List (String × List DataManagerError) :=
  match errors with
  | [] => [(identity, es)]
  | (k, v) :: rest =>
    if k = identity then (k, es) :: rest
    else (k, v) :: setErrorsFor rest identity es

/-- `Manager.addErrors(identity, errors)`: initialize a missing entry to `[]`,
then replace the entry by its concatenation with the new errors. -/
def addErrors (st : ManagerState) (identity : String)
    (errs : List DataManagerError) : ManagerState :=
  let errors :=
    if (st.errors.lookup identity).isNone then setErrorsFor st.errors identity []
    else st.errors
  { st with errors := setErrorsFor errors identity (getErrorsFor errors identity ++ errs) }

/-- `Manager.consumeErrorsFor(identity)`: return the accumulated errors
(`|| []`) and reset the entry to `[]`. -/
def consumeErrorsFor (st : ManagerState) (identity : String) :
    List DataManagerError × ManagerState :=
  (getErrorsFor st.errors identity,
   { st with errors := setErrorsFor st.errors identity [] })

/-- `this._importingEntities[identity]` with a missing entry read as falsy. -/
def getImporting (entities : List (String × Bool)) (identity : String) : Bool :=
  match entities.lookup identity with
  | some b => b
  | none => false

/-- JS object key update-or-insert on the in-flight map. -/
def setImporting (entities : List (String × Bool)) (identity : String)
    (b : Bool) : List (String × Bool) :=
  match entities with
  | [] => [(identity, b)]
  | (k, v) :: rest =>
    if k = identity then (k, b) :: rest
    else (k, v) :: setImporting rest identity b

/-- `Manager._importingEntity(identity, importing)`. -/
def _importingEntity (st : ManagerState) (identity : String)
    (importing : Bool := true) : ManagerState :=
  { st with importingEntities := setImporting st.importingEntities identity importing }

/-- `Manager.currentlyBeingImported()`: the keys of the in-flight map whose
value is truthy, in key order. -/
def currentlyBeingImported (st : ManagerState) : List String :=
  (st.importingEntities.map Prod.fst).foldl
    (fun acc key => if getImporting st.importingEntities key then acc ++ [key] else acc)
    []

/-- The `importing` getter: some in-flight value is `=== true`. -/
def importing (st : ManagerState) : Bool :=
  st.importingEntities.any (fun kv => kv.2 == true)

/-- The ways a reconciliation pass as a whole can reject. -/
inductive FatalError where
  | provider (message : String)
  | modelNotFound
  | destroyFailed (e : StoreErr)
  | criteria (message : String)
  deriving DecidableEq, Repr

/-- `Manager._applyTransform(identity, items, options)`: apply the optional
batch-level transform to the whole sequence.  A string-valued transform is
resolved through the external plugin provider before the pass, with load
failures logged and the transform dropped, so here it is already the
resolved function or `none`. -/
def _applyTransform (options : ImportOptions) (items : List Record) :
    List Record :=
  match options.transform with
  | some f => f items
  | none => items

/-- `Manager._importModel(identity, items, options)`.  The model provider's
settled promise, the store handle and the result of the truncate-time
`Model.destroy({})` enter as parameters (external collaborators).  A
string-valued `transform` has already been resolved (or dropped) by the
plugin provider, so `options.transform` is the optional batch function.
The in-flight flag is raised before the provider is consulted and cleared
only by `iterate`'s exhausted-sequence step, which also flushes a non-empty
local error list into the aggregator. -/
def _importModel (st : ManagerState) (identity : String)
    (modelRes : Except String (Option ModelDef)) (items : List Record)
    (options : ImportOptions) (upsert : Upsert)
    (destroyRes : Except StoreErr Unit) :
    Except FatalError (List Record) × ManagerState :=
  let items := _applyTransform options items
  let st := _importingEntity st identity true
  match modelRes with
  | .error e => (.error (.provider e), st)
  | .ok none => (.error .modelNotFound, st)
  | .ok (some M) =>
    let method := passMethod options
    let run : ManagerState → Except FatalError (List Record) × ManagerState :=
      fun st =>
        match runIterate identity M options method upsert items with
        | .error e => (.error (.criteria e), st)
        | .ok (output, errors) =>
          let st := if errors.isEmpty then st else addErrors st identity errors
          (.ok output, _importingEntity st identity false)
    if options.truncate then
      match destroyRes with
      | .error e => (.error (.destroyFailed e), st)
      | .ok _ => run st
    else run st

/-- The `query.populate` option of `exportModels`: absent, a relation name,
a list of names, or an object carrying an optional `name` and `criteria`. -/
inductive PopulateSpec where
  | noPop
  | byName (s : String)
  | byNames (l : List String)
  | byObject (name : Option String) (criteria : Option Criteria)
  deriving Repr

/-- The query argument of `exportModels`. `skip`/`limit` are `none` when the
key is absent (JS falsy `0` behaves the same under the `if (query.skip)`
guards), `sort` likewise with the empty string. -/
structure ExportQuery where
  criteria : Option Criteria := none
  populate : PopulateSpec := .noPop
  skip : Option Int := none
  limit : Option Int := none
  sort : Option String := none

/-- One chained call on the lazy store query built by `exportModels`. -/
inductive OrmOp where
  | populateName (s : String)
  | populateNames (l : List String)
  | populateWith (s : String) (c : Option Criteria)
  | skipOp (n : Int)
  | limitOp (n : Int)
  | sortOp (s : String)
  deriving DecidableEq, Repr

/-- The chain of calls `Manager.exportModels` makes on `Model.find(...)`, in
source order.  The limit branch reads `if (query.limit) orm.skip(query.limit);`
in the source: it issues a second `skip`, not a `limit`. -/
def exportOps (query : ExportQuery) : List OrmOp :=
  (match query.populate with
   | .noPop => []
   | .byName s => [.populateName s]
   | .byNames l => [.populateNames l]
   | .byObject (some name) c => [.populateWith name c]
   | .byObject none _ => []) ++
  (match query.skip with
   | some n => if n ≠ 0 then [.skipOp n] else []
   | none => []) ++
  (match query.limit with
   | some n => if n ≠ 0 then [.skipOp n] else []
   | none => []) ++
  (match query.sort with
   | some s => if s ≠ "" then [.sortOp s] else []
   | none => [])

/-- The same chain as the spec words it (§4.5: "population of related
fields, skip offset, limit, sort — each only if present in `query`"): the
limit branch issues a `limit`. -/
def specExportOps (query : ExportQuery) : List OrmOp :=
  (match query.populate with
   | .noPop => []
   | .byName s => [.populateName s]
   | .byNames l => [.populateNames l]
   | .byObject (some name) c => [.populateWith name c]
   | .byObject none _ => []) ++
  (match query.skip with
   | some n => if n ≠ 0 then [.skipOp n] else []
   | none => []) ++
  (match query.limit with
   | some n => if n ≠ 0 then [.limitOp n] else []
   | none => []) ++
  (match query.sort with
   | some s => if s ≠ "" then [.sortOp s] else []
   | none => [])

/-- Effect of one chained call on the record collection a store would yield:
`skip(n)` drops the first `n` records, `limit(n)` keeps the first `n`;
population decorates records and sorting is store-defined, neither changes
which records of an already-ordered collection are returned, so they pass
the collection through here. -/
def applyOrmOp (records : List Record) : OrmOp → List Record
  | .skipOp n => records.drop n.toNat
  | .limitOp n => records.take n.toNat
  | _ => records

/-- Run the whole chain over the collection `Model.find` would yield. -/
def applyOrmOps (records : List Record) (ops : List OrmOp) : List Record :=
  ops.foldl applyOrmOp records

theorem lookup_setErrorsFor_self (e : List (String × List DataManagerError))
    (identity : String) (es : List DataManagerError) :
    (setErrorsFor e identity es).lookup identity = some es := by
  induction e with
  | nil => simp [setErrorsFor, List.lookup]
  | cons hd tl ih =>
    by_cases h : hd.1 = identity
    · simp [setErrorsFor, h, List.lookup]
    · have hb : (identity == hd.1) = false := by
        simp [beq_eq_false_iff_ne]
        exact fun hh => h hh.symm
      simp [setErrorsFor, h, List.lookup, hb, ih]

theorem getErrorsFor_setErrorsFor_self (e : List (String × List DataManagerError))
    (identity : String) (es : List DataManagerError) :
    getErrorsFor (setErrorsFor e identity es) identity = es := by
  simp [getErrorsFor, lookup_setErrorsFor_self]

theorem addErrors_get (st : ManagerState) (identity : String)
    (errs : List DataManagerError) :
    getErrorsFor (addErrors st identity errs).errors identity
      = getErrorsFor st.errors identity ++ errs := by
  unfold addErrors
  by_cases hn : st.errors.lookup identity = none
  · simp only [hn, Option.isNone_none, if_true]
    rw [getErrorsFor_setErrorsFor_self, getErrorsFor_setErrorsFor_self]
    simp [getErrorsFor, hn]
  · have hsome : ∃ es, st.errors.lookup identity = some es := by
      cases hx : st.errors.lookup identity
      · exact absurd hx hn
      · exact ⟨_, rfl⟩
    obtain ⟨es, hes⟩ := hsome
    simp only [hes, Option.isNone_some, Bool.false_eq_true, if_false]
    rw [getErrorsFor_setErrorsFor_self]

/-- C9: the error aggregator is additive and lossless until drained:
`addErrors` appends the new errors to those already stored for the identity,
`consumeErrorsFor` returns every accumulated error and resets the entry to
the empty list, and draining an identity with no recorded errors returns
the empty list. -/
theorem c9_error_aggregator (st : ManagerState) (identity : String)
    (errs : List DataManagerError) :
    getErrorsFor (addErrors st identity errs).errors identity
        = getErrorsFor st.errors identity ++ errs
    ∧ (consumeErrorsFor st identity).1 = getErrorsFor st.errors identity
    ∧ getErrorsFor (consumeErrorsFor st identity).2.errors identity = []
    ∧ (st.errors.lookup identity = none → (consumeErrorsFor st identity).1 = []) := by
  refine ⟨addErrors_get st identity errs, rfl, ?_, ?_⟩
  · simp [consumeErrorsFor, getErrorsFor_setErrorsFor_self]
  · intro h
    simp [consumeErrorsFor, getErrorsFor, h]

/-- Witness for C9 at a concrete state: an aggregator already holding one
error for `"user"` receives one more, is drained, and a fresh identity
drains to the empty list. -/
theorem c9_witness :
    (getErrorsFor
        (addErrors
          ⟨[("user",
             [wrapError [] "user" "updateOrCreate" .undef { message := "a" }])],
            []⟩
          "user" [wrapError [] "user" "create" .undef { message := "b" }]).errors
        "user"
      = [wrapError [] "user" "updateOrCreate" .undef { message := "a" },
         wrapError [] "user" "create" .undef { message := "b" }])
    ∧ (([] : List (String × List DataManagerError)).lookup "ghost" = none
        → (consumeErrorsFor ⟨[], []⟩ "ghost").1 = []) := by
  constructor
  · exact (c9_error_aggregator
      ⟨[("user", [wrapError [] "user" "updateOrCreate" .undef { message := "a" }])], []⟩
      "user" [wrapError [] "user" "create" .undef { message := "b" }]).1
  · exact fun h => (c9_error_aggregator ⟨[], []⟩ "ghost" []).2.2.2 h

/-- C4: the source computes `numberOfItemsBeforeDelay % itemCount` where the
spec requires the processed count modulo `numberOfItemsBeforeDelay`.  With
the buffer size 2 and 4 already-processed records the spec demands a delay
(4 mod 2 = 0) but the code computes 2 mod 4 = 2 and does not delay. -/
theorem c4_throttle_swapped_operands :
    _itemTriggersBatchDelay { numberOfItemsBeforeDelay := some 2 } 4 = false
    ∧ specTriggersBatchDelay { numberOfItemsBeforeDelay := some 2 } 4 = true
    ∧ _itemTriggersBatchDelay { numberOfItemsBeforeDelay := some 2 } 4
        ≠ specTriggersBatchDelay { numberOfItemsBeforeDelay := some 2 } 4 := by
  exact ⟨rfl, rfl, by decide⟩

/-- C8: `exportModels` never applies a limit: the source's limit branch reads
`if (query.limit) orm.skip(query.limit);`, issuing a second skip.  For the
query `{limit: 5}` over six records the built chain is `[skip 5]` where the
spec's fixed order demands `[limit 5]`; the store then yields the last
record instead of the first five. -/
theorem c8_export_limit_bug :
    exportOps { limit := some 5 } = [OrmOp.skipOp 5]
    ∧ specExportOps { limit := some 5 } = [OrmOp.limitOp 5]
    ∧ applyOrmOps
        [[("id", JSVal.num 1)], [("id", JSVal.num 2)], [("id", JSVal.num 3)],
         [("id", JSVal.num 4)], [("id", JSVal.num 5)], [("id", JSVal.num 6)]]
        (exportOps { limit := some 5 })
      = [[("id", JSVal.num 6)]]
    ∧ applyOrmOps
        [[("id", JSVal.num 1)], [("id", JSVal.num 2)], [("id", JSVal.num 3)],
         [("id", JSVal.num 4)], [("id", JSVal.num 5)], [("id", JSVal.num 6)]]
        (specExportOps { limit := some 5 })
      = [[("id", JSVal.num 1)], [("id", JSVal.num 2)], [("id", JSVal.num 3)],
         [("id", JSVal.num 4)], [("id", JSVal.num 5)]] := by
  refine ⟨rfl, rfl, rfl, rfl⟩

theorem getVal_hydrateStep_ne (rec : Record) (kv : String × FieldDef)
    (key : String) (h : kv.1 ≠ key) :
    getVal (hydrateStep rec kv) key = getVal rec key := by
  unfold hydrateStep
  by_cases h1 : getVal rec kv.1 ≠ JSVal.undef
  · simp [h1]
  · by_cases h2 : defaultTruthy kv.2.defaultsTo = false
    · simp [h1, h2]
    · simp [h1, h2, getVal_setVal_ne _ _ _ _ h]

theorem foldHydrate_not_mem (key : String) :
    ∀ (defs : List (String × FieldDef)) (rec : Record),
    key ∉ defs.map Prod.fst →
    getVal (defs.foldl hydrateStep rec) key = getVal rec key := by
  intro defs
  induction defs with
  | nil => intro rec _; rfl
  | cons hd tl ih =>
    intro rec hmem
    simp only [List.map_cons, List.mem_cons] at hmem
    push_neg at hmem
    simp only [List.foldl_cons]
    rw [ih _ hmem.2, getVal_hydrateStep_ne _ _ _ (fun hh => hmem.1 hh.symm)]

theorem foldHydrate_present (key : String) :
    ∀ (defs : List (String × FieldDef)) (rec : Record),
    getVal rec key ≠ JSVal.undef →
    getVal (defs.foldl hydrateStep rec) key = getVal rec key := by
  intro defs
  induction defs with
  | nil => intro rec _; rfl
  | cons hd tl ih =>
    intro rec hpres
    simp only [List.foldl_cons]
    by_cases hk : hd.1 = key
    · have hstep : hydrateStep rec hd = rec := by
        unfold hydrateStep
        simp [hk, hpres]
      rw [hstep]
      exact ih _ hpres
    · rw [ih _ (by rw [getVal_hydrateStep_ne _ _ _ hk]; exact hpres),
         getVal_hydrateStep_ne _ _ _ hk]

theorem foldHydrate_assigns (key : String) (fd : FieldDef) :
    ∀ (defs : List (String × FieldDef)) (rec : Record),
    (key, fd) ∈ defs → (defs.map Prod.fst).Nodup →
    getVal rec key = JSVal.undef → defaultTruthy fd.defaultsTo = true →
    getVal (defs.foldl hydrateStep rec) key = _get fd.defaultsTo := by
  intro defs
  induction defs with
  | nil => intro rec hmem; simp at hmem
  | cons hd tl ih =>
    intro rec hmem hnd hundef htruthy
    simp only [List.map_cons, List.nodup_cons] at hnd
    simp only [List.foldl_cons]
    rcases List.mem_cons.mp hmem with heq | htl
    · have hk : hd.1 = key := by rw [← heq]
      have hfd : hd.2 = fd := by rw [← heq]
      have hstep : hydrateStep rec hd = setVal rec key (_get fd.defaultsTo) := by
        unfold hydrateStep
        simp [hk, hfd, hundef, htruthy]
      rw [hstep, foldHydrate_not_mem key tl _ (by rw [← hk]; exact hnd.1),
        getVal_setVal_self]
    · have hk : hd.1 ≠ key := by
        intro hh
        exact hnd.1 (hh ▸ (List.mem_map.mpr ⟨(key, fd), htl, rfl⟩))
      rw [ih _ htl hnd.2 (by rw [getVal_hydrateStep_ne _ _ _ hk]; exact hundef) htruthy]

/-- C7 counterexample: the schema field `count` declares a `defaultsTo` of
`0`, the record holds no value for it, yet hydration leaves it undefined —
the source skips every falsy `defaultsTo` (`if (!definition.defaultsTo)
return;`), so a declared default of `0`, `""` or `false` is never applied. -/
theorem c7_default_hydration_counterexample :
    (({ attributes := [("count", { type := "integer" })],
        definition := [("count", { defaultsTo := .value (.num 0) })] } :
          ModelDef).definition.lookup "count"
      = some { defaultsTo := DefaultSpec.value (.num 0) })
    ∧ DefaultSpec.value (.num 0) ≠ DefaultSpec.absent
    ∧ getVal ([] : Record) "count" = JSVal.undef
    ∧ getVal
        (_makeDefaultAttributes
          { attributes := [("count", { type := "integer" })],
            definition := [("count", { defaultsTo := .value (.num 0) })] }
          []) "count"
      = JSVal.undef
    ∧ _get (DefaultSpec.value (.num 0)) ≠ JSVal.undef := by
  refine ⟨rfl, by decide, rfl, rfl, by decide⟩

/-- C7 amended: every schema field that declares a *truthy* `defaultsTo`
(a producer function, or a literal that is not JS-falsy) and has no value
already present in the record is assigned its default — invoking a
zero-argument producer, otherwise assigning the literal; fields already
holding explicit values are never overwritten. -/
theorem c7_default_hydration_amended (M : ModelDef) (record : Record)
    (key : String) (fd : FieldDef)
    (hmem : (key, fd) ∈ M.definition)
    (hnd : (M.definition.map Prod.fst).Nodup) :
    (getVal record key = JSVal.undef → defaultTruthy fd.defaultsTo = true →
      getVal (_makeDefaultAttributes M record) key = _get fd.defaultsTo)
    ∧ (getVal record key ≠ JSVal.undef →
      getVal (_makeDefaultAttributes M record) key = getVal record key) := by
  constructor
  · intro hundef htruthy
    exact foldHydrate_assigns key fd M.definition record hmem hnd hundef htruthy
  · intro hpres
    exact foldHydrate_present key M.definition record hpres

/-- Witness for the amended C7: a schema with a truthy literal default and a
producer default; the missing fields are hydrated and the explicit field is
left alone. -/
theorem c7_witness :
    getVal
      (_makeDefaultAttributes
        { definition := [("name", { defaultsTo := .value (.str "anon") }),
                         ("uuid", { defaultsTo := .producer (.str "u-1") })] }
        [("uuid", .str "existing")])
      "name" = JSVal.str "anon"
    ∧ getVal
        (_makeDefaultAttributes
          { definition := [("name", { defaultsTo := .value (.str "anon") }),
                           ("uuid", { defaultsTo := .producer (.str "u-1") })] }
          [("uuid", .str "existing")])
        "uuid" = JSVal.str "existing" := by
  constructor
  · exact (c7_default_hydration_amended
      { definition := [("name", { defaultsTo := .value (.str "anon") }),
                       ("uuid", { defaultsTo := .producer (.str "u-1") })] }
      [("uuid", .str "existing")] "name" { defaultsTo := .value (.str "anon") }
      (by decide) (by decide)).1 (by decide) (by decide)
  · exact (c7_default_hydration_amended
      { definition := [("name", { defaultsTo := .value (.str "anon") }),
                       ("uuid", { defaultsTo := .producer (.str "u-1") })] }
      [("uuid", .str "existing")] "uuid" { defaultsTo := .producer (.str "u-1") }
      (by decide) (by decide)).2 (by decide)

theorem getImporting_setImporting_self (entities : List (String × Bool))
    (identity : String) (b : Bool) :
    getImporting (setImporting entities identity b) identity = b := by
  induction entities with
  | nil => simp [setImporting, getImporting, List.lookup]
  | cons hd tl ih =>
    by_cases h : hd.1 = identity
    · simp [setImporting, getImporting, h, List.lookup]
    · have hb : (identity == hd.1) = false := by
        simp [beq_eq_false_iff_ne]
        exact fun hh => h hh.symm
      simpa [setImporting, getImporting, h, List.lookup, hb] using ih

theorem mem_keys_setImporting (entities : List (String × Bool))
    (identity : String) (b : Bool) :
    identity ∈ (setImporting entities identity b).map Prod.fst := by
  induction entities with
  | nil => simp [setImporting]
  | cons hd tl ih =>
    by_cases h : hd.1 = identity
    · simp [setImporting, h]
    · simp only [setImporting, h, if_false, List.map_cons, List.mem_cons]
      exact Or.inr ih

theorem foldl_trueKeys (p : String → Bool) :
    ∀ (l : List String) (acc : List String),
    l.foldl (fun acc key => if p key then acc ++ [key] else acc) acc
      = acc ++ l.filter p := by
  intro l
  induction l with
  | nil => intro acc; simp
  | cons hd tl ih =>
    intro acc
    by_cases h : p hd
    · simp [h, ih, List.filter_cons]
    · simp [h, ih, List.filter_cons]

theorem mem_currentlyBeingImported (st : ManagerState) (identity : String)
    (hmem : identity ∈ st.importingEntities.map Prod.fst)
    (hflag : getImporting st.importingEntities identity = true) :
    identity ∈ currentlyBeingImported st := by
  unfold currentlyBeingImported
  rw [foldl_trueKeys]
  simp only [List.nil_append, List.mem_filter]
  exact ⟨hmem, hflag⟩

theorem importing_of_getImporting (entities : List (String × Bool))
    (identity : String)
    (h : getImporting entities identity = true) :
    entities.any (fun kv => kv.2 == true) = true := by
  induction entities with
  | nil => simp [getImporting, List.lookup] at h
  | cons hd tl ih =>
    by_cases hk : (identity == hd.1)
    · have : hd.2 = true := by
        simpa [getImporting, List.lookup, hk] using h
      simp [List.any_cons, this]
    · simp only [List.any_cons, Bool.or_eq_true]
      exact Or.inr (ih (by simpa [getImporting, List.lookup, hk] using h))

theorem importModel_error_state (st : ManagerState) (identity : String)
    (modelRes : Except String (Option ModelDef)) (items : List Record)
    (options : ImportOptions) (upsert : Upsert)
    (destroyRes : Except StoreErr Unit) (f : FatalError) (st' : ManagerState)
    (h : _importModel st identity modelRes items options upsert destroyRes
          = (.error f, st')) :
    st' = _importingEntity st identity true := by
  rcases modelRes with e | M?
  · have he : _importModel st identity (.error e) items options upsert destroyRes
        = (.error (.provider e), _importingEntity st identity true) := rfl
    rw [he] at h
    exact (congrArg Prod.snd h).symm
  · rcases M? with _ | M
    · have he : _importModel st identity (.ok none) items options upsert destroyRes
          = (.error .modelNotFound, _importingEntity st identity true) := rfl
      rw [he] at h
      exact (congrArg Prod.snd h).symm
    · by_cases ht : options.truncate
      · rcases destroyRes with e | u
        · have he : _importModel st identity (.ok (some M)) items options upsert
              (.error e)
              = (.error (.destroyFailed e), _importingEntity st identity true) := by
            simp [_importModel, ht]
          rw [he] at h
          exact (congrArg Prod.snd h).symm
        · rcases hit : runIterate identity M options (passMethod options) upsert
              (_applyTransform options items) with e | p
          · have he : _importModel st identity (.ok (some M)) items options upsert
                (.ok u)
                = (.error (.criteria e), _importingEntity st identity true) := by
              simp [_importModel, ht, hit]
            rw [he] at h
            exact (congrArg Prod.snd h).symm
          · rcases p with ⟨output, errors⟩
            simp [_importModel, ht, hit] at h
      · rcases hit : runIterate identity M options (passMethod options) upsert
            (_applyTransform options items) with e | p
        · have he : _importModel st identity (.ok (some M)) items options upsert
              destroyRes
              = (.error (.criteria e), _importingEntity st identity true) := by
            simp [_importModel, ht, hit]
          rw [he] at h
          exact (congrArg Prod.snd h).symm
        · rcases p with ⟨output, errors⟩
          simp [_importModel, ht, hit] at h

/-- C10: when a reconciliation pass for an identity fails fatally (the model
provider rejects or resolves with no model, the truncate-time destroy
fails, or criteria building throws mid-iteration), the in-flight flag is
never cleared: the only path setting it back to false is the
record-sequence-exhausted step, so after the rejection the identity still
reads as importing, `currentlyBeingImported` lists it and the `importing`
getter stays true. -/
theorem c10_inflight_not_cleared (st : ManagerState) (identity : String)
    (modelRes : Except String (Option ModelDef)) (items : List Record)
    (options : ImportOptions) (upsert : Upsert)
    (destroyRes : Except StoreErr Unit) (f : FatalError) (st' : ManagerState)
    (h : _importModel st identity modelRes items options upsert destroyRes
          = (.error f, st')) :
    getImporting st'.importingEntities identity = true
    ∧ identity ∈ currentlyBeingImported st'
    ∧ importing st' = true := by
  have hst : st' = _importingEntity st identity true :=
    importModel_error_state st identity modelRes items options upsert
      destroyRes f st' h
  subst hst
  have hflag : getImporting (_importingEntity st identity true).importingEntities
      identity = true := getImporting_setImporting_self _ _ _
  refine ⟨hflag, ?_, ?_⟩
  · exact mem_currentlyBeingImported _ _ (mem_keys_setImporting _ _ _) hflag
  · exact importing_of_getImporting _ _ hflag

/-- Witness for C10: a pass whose model provider rejects leaves the identity
flagged in-flight, listed by `currentlyBeingImported`, with `importing`
true. -/
theorem c10_witness :
    _importModel ⟨[], []⟩ "user" (.error "boom") [] {}
        (fun _ args => .ok args.record) (.ok ())
      = (.error (.provider "boom"), ⟨[], [("user", true)]⟩)
    ∧ (getImporting [("user", true)] "user" = true
      ∧ "user" ∈ currentlyBeingImported ⟨[], [("user", true)]⟩
      ∧ importing ⟨[], [("user", true)]⟩ = true) :=
  ⟨rfl,
   c10_inflight_not_cleared ⟨[], []⟩ "user" (.error "boom") [] {}
     (fun _ args => .ok args.record) (.ok ()) (.provider "boom")
     ⟨[], [("user", true)]⟩ rfl⟩

theorem step_ok_spec (M : ModelDef) (options : ImportOptions) (method : String)
    (r : Record) (s : StepRes) (h : step M options method r = .ok s) :
    s.strategy
        = (if _emptyCriteria s.criteria && options.truncate then "create"
           else method)
    ∧ s.truncateFlag
        = (if _emptyCriteria s.criteria && options.truncate then false
           else options.truncate)
    ∧ s.args
        = (if s.truncateFlag then UpsertArgs.truncateArgs s.record
           else UpsertArgs.criteriaArgs s.criteria s.record) := by
  unfold step at h
  dsimp only at h
  split at h
  · exact absurd h (by simp)
  · rename_i criteria record heq
    simp only [Except.ok.injEq] at h
    subst h
    refine ⟨rfl, rfl, ?_⟩
    by_cases hd : _emptyCriteria criteria && options.truncate <;> simp [hd]

/-- C3: in a truncating pass, a record whose built criteria are empty — the
missing-criteria `undefined` or the empty disjunction `{or: []}` — is
dispatched through the store's `create` operation, and for any record of
the same batch with non-empty criteria the truncate path stays in effect
(the per-record flag is still set and the dispatch passes just the record,
with strategy `create`). -/
theorem c3_truncate_empty_criteria (M : ModelDef) (options : ImportOptions)
    (r r' : Record) (s s' : StepRes)
    (htr : options.truncate = true)
    (hr : step M options (passMethod options) r = .ok s)
    (hr' : step M options (passMethod options) r' = .ok s')
    (hempty : s.criteria = .undef ∨ s.criteria = .disj [])
    (hnonempty : _emptyCriteria s'.criteria = false) :
    s.strategy = "create"
    ∧ s'.strategy = "create"
    ∧ s'.truncateFlag = true
    ∧ s'.args = .truncateArgs s'.record := by
  have hm : passMethod options = "create" := by simp [passMethod, htr]
  obtain ⟨hstrat, _, _⟩ := step_ok_spec M options (passMethod options) r s hr
  obtain ⟨hstrat', hflag', hargs'⟩ :=
    step_ok_spec M options (passMethod options) r' s' hr'
  have h1 : s.strategy = "create" := by
    rw [hstrat, hm]
    by_cases hd : _emptyCriteria s.criteria && options.truncate <;> simp [hd]
  have hflag'' : s'.truncateFlag = true := by
    rw [hflag']
    simp [hnonempty, htr]
  refine ⟨h1, ?_, hflag'', ?_⟩
  · rw [hstrat', hm]
    by_cases hd : _emptyCriteria s'.criteria && options.truncate <;> simp [hd]
  · rw [hargs', hflag'']
    simp

/-- Witness for C3: under `truncate`, a record with no usable identity
values (its criteria collapse to the empty disjunction) and a record with a
valid `id` both go through `create`, the latter still in truncate form. -/
theorem c3_witness :
    ∃ s s' : StepRes,
      step { attributes := [("id", { type := "string" }),
                            ("uuid", { type := "string" })] }
          { truncate := true }
          (passMethod { truncate := true }) [] = .ok s
      ∧ step { attributes := [("id", { type := "string" }),
                              ("uuid", { type := "string" })] }
          { truncate := true }
          (passMethod { truncate := true }) [("id", JSVal.str "1")] = .ok s'
      ∧ (s.criteria = .undef ∨ s.criteria = .disj [])
      ∧ _emptyCriteria s'.criteria = false
      ∧ s.strategy = "create" ∧ s'.strategy = "create"
      ∧ s'.truncateFlag = true ∧ s'.args = .truncateArgs s'.record := by
  refine ⟨{ strategy := "create", truncateFlag := true, criteria := .disj [],
            record := [], args := .truncateArgs [] },
          { strategy := "create", truncateFlag := true,
            criteria := .disj [("id", JSVal.str "1")],
            record := [("id", JSVal.str "1")],
            args := .truncateArgs [("id", JSVal.str "1")] },
          rfl, rfl, Or.inr rfl, rfl, ?_⟩
  have h := c3_truncate_empty_criteria
    { attributes := [("id", { type := "string" }),
                     ("uuid", { type := "string" })] }
    { truncate := true } [] [("id", JSVal.str "1")]
    { strategy := "create", truncateFlag := true, criteria := .disj [],
      record := [], args := .truncateArgs [] }
    { strategy := "create", truncateFlag := true,
      criteria := .disj [("id", JSVal.str "1")],
      record := [("id", JSVal.str "1")],
      args := .truncateArgs [("id", JSVal.str "1")] }
    rfl rfl rfl (Or.inr rfl) rfl
  exact ⟨h.1, h.2.1, h.2.2.1, h.2.2.2⟩

/-- The clause `buildCriteria` contributes for one identity field, as a
function of the original record: `none` when the field is unknown to the
model (that case throws instead) or its cast value is empty, otherwise the
equality expression `{field: castValue}`. -/
def clauseFor (M : ModelDef) (record : Record) (field : String) :
    Option (String × JSVal) :=
  match lookupAttr M field with
  | none => none
  | some attr =>
    if isEmptyVal (castVal attr (getVal record field)) then none
    else some (field, castVal attr (getVal record field))

theorem collectClauses_clauses (M : ModelDef) (record : Record) :
    ∀ (fs : List String) (rec : Record),
    fs.Nodup → (∀ f ∈ fs, (lookupAttr M f).isSome = true) →
    (∀ f ∈ fs, getVal rec f = getVal record f) →
    ∃ rec', collectClauses M rec fs
        = .ok (fs.map (clauseFor M record), rec') := by
  intro fs
  induction fs with
  | nil => exact fun rec _ _ _ => ⟨rec, rfl⟩
  | cons f fs ih =>
    intro rec hnd hattr hval
    obtain ⟨attr, hattr0⟩ : ∃ a, lookupAttr M f = some a := by
      have hs := hattr f (List.mem_cons_self f fs)
      cases hx : lookupAttr M f
      · rw [hx] at hs; simp at hs
      · exact ⟨_, rfl⟩
    have hv : getVal rec f = getVal record f := hval f (List.mem_cons_self f fs)
    have hcast : (_castField attr rec f).1 = castVal attr (getVal record f) := by
      rw [castField_fst, hv]
    have hexp : expressionFromField M rec f
        = .ok (clauseFor M record f, (_castField attr rec f).2) := by
      unfold expressionFromField clauseFor
      rw [hattr0]
      by_cases he : isEmptyVal (castVal attr (getVal record f)) <;>
        simp [hcast, he]
    have hnd' := (List.nodup_cons.mp hnd)
    have hval' : ∀ g ∈ fs, getVal (_castField attr rec f).2 g = getVal record g := by
      intro g hg
      have hfg : f ≠ g := fun hh => hnd'.1 (hh ▸ hg)
      rw [castField_snd_getVal_ne attr rec f g hfg]
      exact hval g (List.mem_cons_of_mem f hg)
    obtain ⟨rec', hcc⟩ := ih ((_castField attr rec f).2) hnd'.2
      (fun g hg => hattr g (List.mem_cons_of_mem f hg)) hval'
    exact ⟨rec', by simp [collectClauses, hexp, hcc]⟩

theorem filterMap_clauseFor_nonempty (M : ModelDef) (record : Record)
    (fs : List String) :
    ∀ p ∈ fs.filterMap (clauseFor M record), isEmptyVal p.2 = false := by
  intro p hp
  obtain ⟨f, _, hf⟩ := List.mem_filterMap.mp hp
  unfold clauseFor at hf
  rcases hx : lookupAttr M f with _ | attr
  · rw [hx] at hf; simp at hf
  · rw [hx] at hf
    by_cases he : isEmptyVal (castVal attr (getVal record f))
    · simp [he] at hf
    · simp only [he, if_false, Option.some.injEq, Bool.false_eq_true] at hf
      rw [← hf]
      simpa using he

/-- C5 amended: when exactly one identity field is *supplied* and its cast
value is non-empty, `buildCriteria` returns the bare equality expression
(not wrapped in a disjunction); when two or more identity fields are
supplied (all known to the model, duplicates removed as the identity
resolver guarantees), it returns a disjunction containing exactly the
per-field equality clauses whose cast values are non-empty — empty, null
and absent values contribute no clause.  (The collapse is keyed on the
number of fields supplied, not on the number of non-empty values.) -/
theorem c5_criteria_collapse_amended (M : ModelDef) (record : Record) :
    (∀ f attr, lookupAttr M f = some attr →
      isEmptyVal (castVal attr (getVal record f)) = false →
      buildCriteria M record [f]
        = .ok (.single f (castVal attr (getVal record f)),
               (_castField attr record f).2))
    ∧ (∀ fs : List String, 2 ≤ fs.length → fs.Nodup →
      (∀ f ∈ fs, (lookupAttr M f).isSome = true) →
      (∃ rec', buildCriteria M record fs
          = .ok (.disj (fs.filterMap (clauseFor M record)), rec'))
      ∧ ∀ p ∈ fs.filterMap (clauseFor M record), isEmptyVal p.2 = false) := by
  constructor
  · intro f attr hattr hne
    have hcast : (_castField attr record f).1 = castVal attr (getVal record f) :=
      castField_fst attr record f
    have hexp : expressionFromField M record f
        = .ok (some (f, castVal attr (getVal record f)),
               (_castField attr record f).2) := by
      unfold expressionFromField
      rw [hattr]
      simp [hcast, hne]
    simp [buildCriteria, hexp]
  · intro fs hlen hnd hattr
    refine ⟨?_, filterMap_clauseFor_nonempty M record fs⟩
    obtain ⟨a, b, t, rfl⟩ : ∃ a b t, fs = a :: b :: t := by
      rcases fs with _ | ⟨a, _ | ⟨b, t⟩⟩
      · simp at hlen
      · simp at hlen
      · exact ⟨a, b, t, rfl⟩
    obtain ⟨rec', hcc⟩ := collectClauses_clauses M record (a :: b :: t) record
      hnd hattr (fun _ _ => rfl)
    refine ⟨rec', ?_⟩
    simp only [buildCriteria, hcc]
    congr 2
    rw [List.filterMap_map]
    rfl

/-- C5 counterexample: with the two identity fields `id, uuid` supplied and
only `uuid` holding a non-empty value, `buildCriteria` returns a one-clause
disjunction, not the bare single equality expression the claim demands. -/
theorem c5_criteria_collapse_counterexample :
    (["id", "uuid"].countP
        (fun f => !isEmptyVal (getVal [("uuid", JSVal.str "x")] f)) = 1)
    ∧ buildCriteria
        { attributes := [("id", { type := "integer" }),
                         ("uuid", { type := "string" })] }
        [("uuid", JSVal.str "x")] ["id", "uuid"]
      = .ok (.disj [("uuid", JSVal.str "x")], [("uuid", JSVal.str "x")])
    ∧ ∀ f v, (Criteria.disj [("uuid", JSVal.str "x")] : Criteria)
        ≠ .single f v := by
  refine ⟨by decide, rfl, ?_⟩
  intro f v h
  exact Criteria.noConfusion h

/-- Witness for the amended C5: one supplied field with a non-empty value
yields a bare equality; the two supplied fields of the counterexample model
yield the disjunction of exactly the non-empty clauses. -/
theorem c5_witness :
    buildCriteria { attributes := [("id", { type := "integer" })] }
        [("id", JSVal.num 7)] ["id"]
      = .ok (.single "id" (JSVal.num 7), [("id", JSVal.num 7)])
    ∧ (∃ rec', buildCriteria
        { attributes := [("id", { type := "integer" }),
                         ("uuid", { type := "string" })] }
        [("uuid", JSVal.str "x")] ["id", "uuid"]
      = .ok (.disj (["id", "uuid"].filterMap
          (clauseFor
            { attributes := [("id", { type := "integer" }),
                             ("uuid", { type := "string" })] }
            [("uuid", JSVal.str "x")])), rec')) := by
  constructor
  · exact (c5_criteria_collapse_amended
      { attributes := [("id", { type := "integer" })] }
      [("id", JSVal.num 7)]).1 "id" { type := "integer" } rfl (by decide)
  · obtain ⟨⟨rec', hh⟩, _⟩ := (c5_criteria_collapse_amended
      { attributes := [("id", { type := "integer" }),
                       ("uuid", { type := "string" })] }
      [("uuid", JSVal.str "x")]).2 ["id", "uuid"] (by decide) (by decide)
      (by decide)
    exact ⟨rec', hh⟩

/-- C6 counterexample: a pass whose model provider resolved a store handle,
with `truncate` off (so no destroy ran), still rejects — criteria building
throws because the default identity field `uuid` is not among the model's
attributes.  This is a third fatal case beyond the two the claim allows. -/
theorem c6_fatal_cases_counterexample :
    (_importModel ⟨[], []⟩ "user"
        (.ok (some { attributes := [("id", { type := "integer" })] }))
        [[("id", JSVal.num 1)]] {} (fun _ args => .ok args.record)
        (.ok ())).1
      = .error (.criteria "Build Criteria: model has no field uuid")
    ∧ ({} : ImportOptions).truncate = false := by
  exact ⟨rfl, rfl⟩

/-- C6 amended: a reconciliation pass rejects exactly in three cases — the
model provider rejects or resolves no store handle for the identity,
`options.truncate` is set and the destructive clear itself fails, or
criteria building throws for some record mid-iteration (empty identity
field list, or an identity field unknown to the model); every store error
on an individual upsert is still recovered locally. -/
theorem c6_fatal_cases_amended (st : ManagerState) (identity : String)
    (modelRes : Except String (Option ModelDef)) (items : List Record)
    (options : ImportOptions) (upsert : Upsert)
    (destroyRes : Except StoreErr Unit) (f : FatalError) (st' : ManagerState)
    (h : _importModel st identity modelRes items options upsert destroyRes
          = (.error f, st')) :
    (∃ m, f = .provider m ∧ modelRes = .error m)
    ∨ (f = .modelNotFound ∧ modelRes = .ok none)
    ∨ (options.truncate = true ∧ ∃ e, f = .destroyFailed e
        ∧ destroyRes = .error e)
    ∨ (∃ M m, modelRes = .ok (some M) ∧ f = .criteria m
        ∧ runIterate identity M options (passMethod options) upsert
            (_applyTransform options items) = .error m) := by
  rcases modelRes with e | M?
  · have he : _importModel st identity (.error e) items options upsert destroyRes
        = (.error (.provider e), _importingEntity st identity true) := rfl
    rw [he] at h
    injection h with h1 h2
    injection h1 with h3
    exact Or.inl ⟨e, h3.symm, rfl⟩
  · rcases M? with _ | M
    · have he : _importModel st identity (.ok none) items options upsert destroyRes
          = (.error .modelNotFound, _importingEntity st identity true) := rfl
      rw [he] at h
      injection h with h1 h2
      injection h1 with h3
      exact Or.inr (Or.inl ⟨h3.symm, rfl⟩)
    · by_cases ht : options.truncate
      · rcases destroyRes with e | u
        · have he : _importModel st identity (.ok (some M)) items options upsert
              (.error e)
              = (.error (.destroyFailed e), _importingEntity st identity true) := by
            simp [_importModel, ht]
          rw [he] at h
          injection h with h1 h2
          injection h1 with h3
          exact Or.inr (Or.inr (Or.inl ⟨ht, e, h3.symm, rfl⟩))
        · rcases hit : runIterate identity M options (passMethod options) upsert
              (_applyTransform options items) with e | p
          · have he : _importModel st identity (.ok (some M)) items options upsert
                (.ok u)
                = (.error (.criteria e), _importingEntity st identity true) := by
              simp [_importModel, ht, hit]
            rw [he] at h
            injection h with h1 h2
            injection h1 with h3
            exact Or.inr (Or.inr (Or.inr ⟨M, e, rfl, h3.symm, hit⟩))
          · rcases p with ⟨output, errors⟩
            simp [_importModel, ht, hit] at h
      · rcases hit : runIterate identity M options (passMethod options) upsert
            (_applyTransform options items) with e | p
        · have he : _importModel st identity (.ok (some M)) items options upsert
              destroyRes
              = (.error (.criteria e), _importingEntity st identity true) := by
            simp [_importModel, ht, hit]
          rw [he] at h
          injection h with h1 h2
          injection h1 with h3
          exact Or.inr (Or.inr (Or.inr ⟨M, e, rfl, h3.symm, hit⟩))
        · rcases p with ⟨output, errors⟩
          simp [_importModel, ht, hit] at h

/-- Witness for the amended C6, at the counterexample input: the rejection
falls into the added criteria-throw case. -/
theorem c6_witness :
    (∃ m, FatalError.criteria "Build Criteria: model has no field uuid"
        = .provider m
      ∧ (Except.ok (some ({ attributes := [("id", { type := "integer" })] }
          : ModelDef)) : Except String (Option ModelDef)) = .error m)
    ∨ (FatalError.criteria "Build Criteria: model has no field uuid"
        = .modelNotFound
      ∧ (Except.ok (some ({ attributes := [("id", { type := "integer" })] }
          : ModelDef)) : Except String (Option ModelDef)) = .ok none)
    ∨ (({} : ImportOptions).truncate = true
      ∧ ∃ e, FatalError.criteria "Build Criteria: model has no field uuid"
          = .destroyFailed e
        ∧ (Except.ok () : Except StoreErr Unit) = .error e)
    ∨ (∃ M m, (Except.ok (some ({ attributes := [("id", { type := "integer" })] }
          : ModelDef)) : Except String (Option ModelDef)) = .ok (some M)
      ∧ FatalError.criteria "Build Criteria: model has no field uuid"
          = .criteria m
      ∧ runIterate "user" M {} (passMethod {})
          (fun _ args => .ok args.record)
          (_applyTransform {} [[("id", JSVal.num 1)]]) = .error m) :=
  c6_fatal_cases_amended ⟨[], []⟩ "user"
    (.ok (some { attributes := [("id", { type := "integer" })] }))
    [[("id", JSVal.num 1)]] {} (fun _ args => .ok args.record) (.ok ())
    (.criteria "Build Criteria: model has no field uuid")
    ⟨[], [("user", true)]⟩ rfl

/-- Whether one loop turn's pre-dispatch body succeeds for a record. -/
def stepOk (M : ModelDef) (options : ImportOptions) (method : String)
    (r : Record) : Bool :=
  match step M options method r with
  | .ok _ => true
  | .error _ => false

/-- The persisted record one loop turn would append to the output for a
record, `none` when the step throws or the upsert rejects. -/
def succOf (M : ModelDef) (options : ImportOptions) (method : String)
    (upsert : Upsert) (r : Record) : Option Record :=
  match step M options method r with
  | .error _ => none
  | .ok s =>
    match upsert s.strategy s.args with
    | .ok rec => some rec
    | .error _ => none

/-- The wrapped error one loop turn would append for a record, `none` when
the step throws or the upsert succeeds. -/
def failOf (identity : String) (M : ModelDef) (options : ImportOptions)
    (method : String) (upsert : Upsert) (r : Record) :
    Option DataManagerError :=
  match step M options method r with
  | .error _ => none
  | .ok s =>
    match upsert s.strategy s.args with
    | .ok _ => none
    | .error err => some (wrapError s.record identity s.strategy s.criteria err)

theorem iterAux_all_ok (identity : String) (M : ModelDef)
    (options : ImportOptions) (method : String) (upsert : Upsert) :
    ∀ (rs : List Record) (output : List Record)
      (errors : List DataManagerError),
    (∀ r ∈ rs, stepOk M options method r = true) →
    iterAux identity M options method upsert rs output errors
      = .ok (output ++ rs.filterMap (succOf M options method upsert),
             errors ++ rs.filterMap (failOf identity M options method upsert)) := by
  intro rs
  induction rs with
  | nil => intro output errors _; simp [iterAux]
  | cons r rs ih =>
    intro output errors hok
    have h0 := hok r (List.mem_cons_self r rs)
    obtain ⟨s, hs⟩ : ∃ s, step M options method r = .ok s := by
      unfold stepOk at h0
      rcases hx : step M options method r with e | s
      · rw [hx] at h0; simp at h0
      · exact ⟨s, rfl⟩
    have htl : ∀ x ∈ rs, stepOk M options method x = true :=
      fun x hx => hok x (List.mem_cons_of_mem r hx)
    rcases hu : upsert s.strategy s.args with err | rec
    · have hturn : iterAux identity M options method upsert (r :: rs) output errors
          = iterAux identity M options method upsert rs output
              (errors ++ [wrapError s.record identity s.strategy s.criteria err]) := by
        simp [iterAux, hs, hu]
      rw [hturn, ih _ _ htl]
      simp [List.filterMap_cons, succOf, failOf, hs, hu]
    · have hturn : iterAux identity M options method upsert (r :: rs) output errors
          = iterAux identity M options method upsert rs (output ++ [rec]) errors := by
        simp [iterAux, hs, hu]
      rw [hturn, ih _ _ htl]
      simp [List.filterMap_cons, succOf, failOf, hs, hu]

theorem succ_fail_lengths (identity : String) (M : ModelDef)
    (options : ImportOptions) (method : String) (upsert : Upsert) :
    ∀ rs : List Record,
    (∀ r ∈ rs, stepOk M options method r = true) →
    (rs.filterMap (succOf M options method upsert)).length
      + (rs.filterMap (failOf identity M options method upsert)).length
      = rs.length := by
  intro rs
  induction rs with
  | nil => intro _; rfl
  | cons r rs ih =>
    intro hok
    have h0 := hok r (List.mem_cons_self r rs)
    obtain ⟨s, hs⟩ : ∃ s, step M options method r = .ok s := by
      unfold stepOk at h0
      rcases hx : step M options method r with e | s
      · rw [hx] at h0; simp at h0
      · exact ⟨s, rfl⟩
    have htl := ih (fun x hx => hok x (List.mem_cons_of_mem r hx))
    rcases hu : upsert s.strategy s.args with err | rec
    · have hsucc : succOf M options method upsert r = none := by
        simp [succOf, hs, hu]
      have hfail : failOf identity M options method upsert r
          = some (wrapError s.record identity s.strategy s.criteria err) := by
        simp [failOf, hs, hu]
      simp only [List.filterMap_cons, hsucc, hfail, List.length_cons]
      omega
    · have hsucc : succOf M options method upsert r = some rec := by
        simp [succOf, hs, hu]
      have hfail : failOf identity M options method upsert r = none := by
        simp [failOf, hs, hu]
      simp only [List.filterMap_cons, hsucc, hfail, List.length_cons]
      omega

theorem filterMap_nil_of_countP_zero {α β : Type} (g : α → Option β) :
    ∀ l : List α, l.countP (fun a => (g a).isSome) = 0 → l.filterMap g = [] := by
  intro l
  induction l with
  | nil => intro _; rfl
  | cons a l ih =>
    intro h
    rw [List.countP_cons] at h
    cases hga : g a with
    | none =>
      rw [hga] at h
      simp only [Option.isSome_none, Bool.false_eq_true, if_false] at h
      simp [List.filterMap_cons, hga, ih (by omega)]
    | some b =>
      rw [hga] at h
      simp [Option.isSome_some] at h

theorem filterMap_singleton_of_countP_one {α β : Type} (g : α → Option β) :
    ∀ l : List α, l.countP (fun a => (g a).isSome) = 1 →
    ∃ a ∈ l, ∃ b, g a = some b ∧ l.filterMap g = [b] := by
  intro l
  induction l with
  | nil => intro h; simp at h
  | cons a l ih =>
    intro h
    rw [List.countP_cons] at h
    cases hga : g a with
    | some b =>
      have hz : l.countP (fun a => (g a).isSome) = 0 := by
        rw [hga] at h
        simp only [Option.isSome_some, if_true] at h
        omega
      refine ⟨a, List.mem_cons_self a l, b, hga, ?_⟩
      simp [List.filterMap_cons, hga, filterMap_nil_of_countP_zero g l hz]
    | none =>
      rw [hga] at h
      simp only [Option.isSome_none, Bool.false_eq_true, if_false] at h
      obtain ⟨x, hx, b, hb, hfm⟩ := ih (by omega)
      exact ⟨x, List.mem_cons_of_mem a hx, b, hb,
        by simp [List.filterMap_cons, hga, hfm]⟩

theorem countP_reverse_eq {α : Type} (p : α → Bool) :
    ∀ l : List α, l.reverse.countP p = l.countP p := by
  intro l
  induction l with
  | nil => rfl
  | cons a l ih =>
    simp [List.reverse_cons, List.countP_append, List.countP_cons, ih]

/-- C2: for records `[A, B, C]` handed to the reconciliation engine in that
arrival order, the pass consumes from the tail of the sequence and upserts
in reverse arrival order: with a store that echoes each persisted record,
the resolved output log reads `C, B, A` (the last-arrived record first). -/
theorem c2_reverse_order (st : ManagerState) (identity : String)
    (M : ModelDef) (options : ImportOptions) (A B C : Record)
    (sA sB sC : StepRes)
    (hT : options.transform = none) (htr : options.truncate = false)
    (hA : step M options (passMethod options) A = .ok sA)
    (hB : step M options (passMethod options) B = .ok sB)
    (hC : step M options (passMethod options) C = .ok sC) :
    (_importModel st identity (.ok (some M)) [A, B, C] options
        (fun _ args => .ok args.record) (.ok ())).1
      = .ok [sC.args.record, sB.args.record, sA.args.record] := by
  have htrans : _applyTransform options [A, B, C] = [A, B, C] := by
    simp [_applyTransform, hT]
  have hrev : ([A, B, C] : List Record).reverse = [C, B, A] := by simp
  have hit : runIterate identity M options (passMethod options)
      (fun _ args => .ok args.record) [A, B, C]
      = .ok ([sC.args.record, sB.args.record, sA.args.record], []) := by
    unfold runIterate
    rw [hrev]
    simp [iterAux, hA, hB, hC]
  simp [_importModel, htrans, htr, hit]

/-- Witness for C2: three concrete records with distinct ids come back in
the order third, second, first. -/
theorem c2_witness :
    (_importModel ⟨[], []⟩ "user"
        (.ok (some { attributes := [("id", { type := "string" }),
                                    ("uuid", { type := "string" })] }))
        [[("id", JSVal.str "1")], [("id", JSVal.str "2")],
         [("id", JSVal.str "3")]]
        {} (fun _ args => .ok args.record) (.ok ())).1
      = .ok [[("id", JSVal.str "3")], [("id", JSVal.str "2")],
             [("id", JSVal.str "1")]] :=
  c2_reverse_order ⟨[], []⟩ "user"
    { attributes := [("id", { type := "string" }),
                     ("uuid", { type := "string" })] }
    {} [("id", JSVal.str "1")] [("id", JSVal.str "2")] [("id", JSVal.str "3")]
    { strategy := "updateOrCreate", truncateFlag := false,
      criteria := .disj [("id", JSVal.str "1")],
      record := [("id", JSVal.str "1")],
      args := .criteriaArgs (.disj [("id", JSVal.str "1")])
        [("id", JSVal.str "1")] }
    { strategy := "updateOrCreate", truncateFlag := false,
      criteria := .disj [("id", JSVal.str "2")],
      record := [("id", JSVal.str "2")],
      args := .criteriaArgs (.disj [("id", JSVal.str "2")])
        [("id", JSVal.str "2")] }
    { strategy := "updateOrCreate", truncateFlag := false,
      criteria := .disj [("id", JSVal.str "3")],
      record := [("id", JSVal.str "3")],
      args := .criteriaArgs (.disj [("id", JSVal.str "3")])
        [("id", JSVal.str "3")] }
    rfl rfl rfl rfl rfl

/-- C1: in a reconciliation pass over `n` records where exactly one record's
store upsert fails and every step succeeds, the pass resolves (does not
reject) with the `n-1` successfully persisted records, and exactly one
wrapped `DataManagerError` for the entity identity — carrying the identity,
the attempted update strategy, the criteria and the failing record — is
appended to the error aggregator; the single failure never aborts the
batch. -/
theorem c1_per_record_isolation (st : ManagerState) (identity : String)
    (M : ModelDef) (items : List Record) (options : ImportOptions)
    (upsert : Upsert)
    (hT : options.transform = none) (htr : options.truncate = false)
    (hsteps : ∀ r ∈ items, stepOk M options (passMethod options) r = true)
    (hone : items.countP
        (fun r =>
          (failOf identity M options (passMethod options) upsert r).isSome)
      = 1) :
    ∃ output e st',
      _importModel st identity (.ok (some M)) items options upsert (.ok ())
        = (.ok output, st')
      ∧ output.length + 1 = items.length
      ∧ getErrorsFor st'.errors identity
          = getErrorsFor st.errors identity ++ [e]
      ∧ e.identity = identity
      ∧ ∃ r ∈ items, ∃ s err,
          step M options (passMethod options) r = .ok s
          ∧ upsert s.strategy s.args = .error err
          ∧ e = wrapError s.record identity s.strategy s.criteria err := by
  have hsteps' : ∀ r ∈ items.reverse,
      stepOk M options (passMethod options) r = true :=
    fun r hr => hsteps r (List.mem_reverse.mp hr)
  have hone' : items.reverse.countP
      (fun r =>
        (failOf identity M options (passMethod options) upsert r).isSome)
      = 1 := by
    rw [countP_reverse_eq]; exact hone
  obtain ⟨r, hrmem, e, he, hfm⟩ :=
    filterMap_singleton_of_countP_one _ items.reverse hone'
  have hiter := iterAux_all_ok identity M options (passMethod options) upsert
    items.reverse [] [] hsteps'
  have hrun : runIterate identity M options (passMethod options) upsert items
      = .ok (items.reverse.filterMap
          (succOf M options (passMethod options) upsert), [e]) := by
    unfold runIterate
    rw [hiter, hfm]
    simp
  have hlen := succ_fail_lengths identity M options (passMethod options)
    upsert items.reverse hsteps'
  rw [hfm] at hlen
  have htrans : _applyTransform options items = items := by
    simp [_applyTransform, hT]
  have hImp : _importModel st identity (.ok (some M)) items options upsert
      (.ok ())
      = (.ok (items.reverse.filterMap
            (succOf M options (passMethod options) upsert)),
         _importingEntity
           (addErrors (_importingEntity st identity true) identity [e])
           identity false) := by
    simp [_importModel, htrans, htr, hrun]
  obtain ⟨s, err, hs, hu, hew⟩ : ∃ s err,
      step M options (passMethod options) r = .ok s
      ∧ upsert s.strategy s.args = .error err
      ∧ e = wrapError s.record identity s.strategy s.criteria err := by
    unfold failOf at he
    rcases hx : step M options (passMethod options) r with e' | s
    · simp only [hx] at he
      exact absurd he (by simp)
    · simp only [hx] at he
      rcases hy : upsert s.strategy s.args with err | rec
      · simp only [hy, Option.some.injEq] at he
        exact ⟨s, err, rfl, hy, he.symm⟩
      · simp only [hy] at he
        exact absurd he (by simp)
  refine ⟨_, e, _, hImp, ?_, ?_, ?_,
    r, List.mem_reverse.mp hrmem, s, err, hs, hu, hew⟩
  · simpa using hlen
  · rw [show (_importingEntity
        (addErrors (_importingEntity st identity true) identity [e])
        identity false).errors
      = (addErrors (_importingEntity st identity true) identity [e]).errors
      from rfl]
    rw [addErrors_get]
    rfl
  · rw [hew]; rfl

/-- Witness for C1: three records, the store rejects exactly the one with
id `"2"`; the pass resolves with the other two and the aggregator gains
exactly the one wrapped error. -/
theorem c1_witness :
    ∃ output e st',
      _importModel ⟨[], []⟩ "user"
        (.ok (some { attributes := [("id", { type := "string" }),
                                    ("uuid", { type := "string" })] }))
        [[("id", JSVal.str "1")], [("id", JSVal.str "2")],
         [("id", JSVal.str "3")]]
        {}
        (fun _ args =>
          if getVal args.record "id" = JSVal.str "2" then
            .error { message := "duplicate" }
          else .ok args.record)
        (.ok ())
        = (.ok output, st')
      ∧ output.length + 1
          = ([[("id", JSVal.str "1")], [("id", JSVal.str "2")],
              [("id", JSVal.str "3")]] : List Record).length
      ∧ getErrorsFor st'.errors "user"
          = getErrorsFor (⟨[], []⟩ : ManagerState).errors "user" ++ [e]
      ∧ e.identity = "user"
      ∧ ∃ r ∈ ([[("id", JSVal.str "1")], [("id", JSVal.str "2")],
                [("id", JSVal.str "3")]] : List Record), ∃ s err,
          step { attributes := [("id", { type := "string" }),
                                ("uuid", { type := "string" })] }
            {} (passMethod {}) r = .ok s
          ∧ (fun (_ : String) (args : UpsertArgs) =>
              if getVal args.record "id" = JSVal.str "2" then
                (.error { message := "duplicate" } : Except StoreErr Record)
              else .ok args.record) s.strategy s.args = .error err
          ∧ e = wrapError s.record "user" s.strategy s.criteria err :=
  c1_per_record_isolation ⟨[], []⟩ "user"
    { attributes := [("id", { type := "string" }),
                     ("uuid", { type := "string" })] }
    [[("id", JSVal.str "1")], [("id", JSVal.str "2")],
     [("id", JSVal.str "3")]]
    {}
    (fun _ args =>
      if getVal args.record "id" = JSVal.str "2" then
        .error { message := "duplicate" }
      else .ok args.record)
    rfl rfl (by decide) (by decide)
